import Mathlib

/-!
Verification of the notification-service core (Go) against its
natural-language specification.

The embedding models, faithfully to the source:
- `internal/models` (`Notification`, `NotificationChannel`);
- `internal/services/notification_service.go` (the three channel services,
  the factory `NewNotificationServiceFactory` and `GetService`);
- `internal/services/scheduler_service.go` (`SchedulerService` with its
  `jobs` map, the cron entry list, `ScheduleNotification`, `Start`, `Stop`,
  and the per-second cron wake that runs every registered entry wrapper).

Time is modelled as natural-number ticks (the cron spec is `@every 1s`, so
one tick per second); `time.Time` pointers become `Option Nat`.  The cron
run loop becomes an explicit `tick` function: on a wake at time `now`, every
entry whose captured notification is due runs its job body (send, then
remove the map entry for the notification id, if present, and the cron
entry it points to).  Delivery (`NotificationService.Send`) is an injected
capability, modelled as a `Sender` value holding a tag (which concrete
service it is) and a result function (`none` = success, `some msg` = error),
mirroring the Go interface with its three always-succeeding implementations.
-/

/-- `type NotificationChannel string` from `internal/models`. -/
abbrev NotificationChannel := String

def ChannelSlack : NotificationChannel := "slack"

def ChannelEmail : NotificationChannel := "email"

def ChannelMessage : NotificationChannel := "message"

/-- The `Notification` struct from `internal/models`.  `*time.Time` fields
become `Option Nat`. -/
structure Notification where
  id : String
  title : String
  content : String
  channel : NotificationChannel
  recipients : List String
  scheduledAt : Option Nat
  createdAt : Nat
  sentAt : Option Nat
deriving DecidableEq, Repr

/-- A sending capability: the Go `NotificationService` interface.  `tag`
identifies the concrete implementation (used to observe *which* service
delivered); `send` returns `none` on success and `some msg` on a delivery
error, mirroring Go's `error` return. -/
structure Sender where
  tag : String
  send : Notification → Option String

/-- `SlackNotificationService.Send` prints and returns `nil`. -/
def SlackNotificationService : Sender := ⟨"slack", fun _ => none⟩

/-- `EmailNotificationService.Send` prints and returns `nil`. -/
def EmailNotificationService : Sender := ⟨"email", fun _ => none⟩

/-- `MessageNotificationService.Send` prints and returns `nil`. -/
def MessageNotificationService : Sender := ⟨"message", fun _ => none⟩

/-- Association-list lookup modelling a read of a Go map. -/
def lookupSender : List (String × Sender) → String → Option Sender
  | [], _ => none
  | (k, v) :: rest, c => if k = c then some v else lookupSender rest c

/-- The `services` map built by `NewNotificationServiceFactory`. -/
def NewNotificationServiceFactory : List (String × Sender) :=
  [(ChannelSlack, SlackNotificationService),
   (ChannelEmail, EmailNotificationService),
   (ChannelMessage, MessageNotificationService)]

/-- `NotificationServiceFactory.GetService`: map lookup; on a missing key it
returns `nil` and the error `unsupported notification channel: <channel>`. -/
def GetService (channel : NotificationChannel) : Except String Sender :=
  match lookupSender NewNotificationServiceFactory channel with
  | some service => .ok service
  | none => .error ("unsupported notification channel: " ++ channel)

/-- One observable delivery attempt: the notification value passed to
`Send`, the tag of the service that was invoked, the wake time, and the
error message recorded by the job body (`none` when `Send` returned `nil`).
The Go code logs the error with `fmt.Printf`; the log of events is the
scheduler's observable reporting. -/
structure SendEvent where
  notification : Notification
  senderTag : String
  time : Nat
  errMsg : Option String
deriving DecidableEq, Repr

/-- The mutable state of a `SchedulerService`:
`entries` is the cron's entry list (EntryID paired with the notification
captured by the scheduled closure), `jobs` the `map[string]cron.EntryID`
(as an association list with unique keys), `nextEntryId` the cron's next
EntryID counter, `running` whether `cron.Start` has been called and
`cron.Stop` has not, and `log` the sequence of delivery attempts made so
far.  The injected `NotificationService` is passed to the operations as a
`Sender` parameter, since the Go field is set at construction and never
reassigned. -/
structure SchedulerState where
  entries : List (Nat × Notification)
  jobs : List (String × Nat)
  nextEntryId : Nat
  running : Bool
  log : List SendEvent
deriving DecidableEq, Repr

/-- `NewSchedulerService`: fresh cron, empty `jobs` map, not yet started. -/
def NewSchedulerService : SchedulerState :=
  { entries := [], jobs := [], nextEntryId := 0, running := false, log := [] }

/-- `SchedulerService.Start` = `s.cron.Start()`. -/
def SchedulerState.start (s : SchedulerState) : SchedulerState :=
  { s with running := true }

/-- `SchedulerService.Stop` = `s.cron.Stop()`: only the run loop halts. -/
def SchedulerState.stop (s : SchedulerState) : SchedulerState :=
  { s with running := false }

/-- Go map read `s.jobs[id]` (with its `exists` flag as `Option`). -/
def lookupJob : List (String × Nat) → String → Option Nat
  | [], _ => none
  | (k, v) :: rest, i => if k = i then some v else lookupJob rest i

/-- Go map `delete(s.jobs, id)`: keys are unique, so removing the first
binding removes the binding. -/
def eraseJob : List (String × Nat) → String → List (String × Nat)
  | [], _ => []
  | (k, v) :: rest, i => if k = i then rest else (k, v) :: eraseJob rest i

/-- Go map write `s.jobs[id] = entryID`: overwrites any existing binding. -/
def insertJob (l : List (String × Nat)) (i : String) (e : Nat) :
    List (String × Nat) :=
  eraseJob l i ++ [(i, e)]

/-- `s.cron.Remove(entryID)`: drop the entry with that EntryID. -/
def removeEntry (l : List (Nat × Notification)) (eid : Nat) :
    List (Nat × Notification) :=
  l.filter (fun e => decide (e.1 ≠ eid))

/-- The observable record of one `Send` invocation by the dispatch path. -/
def mkEvent (svc : Sender) (now : Nat) (n : Notification) : SendEvent :=
  ⟨n, svc.tag, now, svc.send n⟩

/-- The body of the `job` closure in `ScheduleNotification` (lines 46-57):
call `Send` on the injected service, record the outcome (the Go code prints
the error), then under the lock remove the `jobs` map entry for the
notification's id, if present, together with the cron entry it points to. -/
def runJob (svc : Sender) (now : Nat) (s : SchedulerState) (n : Notification) :
    SchedulerState :=
  let s1 := { s with log := s.log ++ [mkEvent svc now n] }
  match lookupJob s1.jobs n.id with
  | some entryID =>
      { s1 with entries := removeEntry s1.entries entryID,
                jobs := eraseJob s1.jobs n.id }
  | none => s1

/-- The guard of the cron wrapper (lines 60-65): run `job` when
`now.After(*n.ScheduledAt) || now.Equal(*n.ScheduledAt)`, i.e. when
`*n.ScheduledAt ≤ now`.  Admission guarantees `ScheduledAt` is non-nil for
every entry, so the `none` branch is unreachable on reachable states. -/
def dueAt (now : Nat) (e : Nat × Notification) : Bool :=
  match e.2.scheduledAt with
  | some t => decide (t ≤ now)
  | none => false

/-- Execute the job bodies of a list of due entries in order, threading the
scheduler state. -/
def runDue (svc : Sender) (now : Nat) (s : SchedulerState)
    (L : List (Nat × Notification)) : SchedulerState :=
  L.foldl (fun acc e => runJob svc now acc e.2) s

/-- One wake of the cron run loop at time `now`: if the cron is running,
every registered entry's wrapper fires; the due ones execute their job
bodies in entry order (robfig/cron collects the due entries of a wake
before any removal takes effect). -/
def tick (svc : Sender) (s : SchedulerState) (now : Nat) : SchedulerState :=
  if s.running then runDue svc now s (s.entries.filter (dueAt now))
  else s

/-- A sequence of wakes. -/
def ticks (svc : Sender) (s : SchedulerState) (times : List Nat) :
    SchedulerState :=
  times.foldl (tick svc) s

/-- `SchedulerService.ScheduleNotification` (lines 35-77):
nil `ScheduledAt` is rejected with `scheduled time is required`; a delay
`ScheduledAt.Sub(time.Now()) ≤ 0` is rejected with `scheduled time must be
in the future`; otherwise a new cron entry with the wrapper closure is
added (`AddFunc("@every 1s", ...)` cannot fail on this constant spec) and
`s.jobs[n.ID] = entryID` is written.  The method mutates its receiver, so
it is modelled as returning the updated state together with the Go `error`
value (`none` = `nil`); on the early-return error paths the state is the
unchanged receiver. -/
def scheduleNotification (s : SchedulerState) (now : Nat) (n : Notification) :
    SchedulerState × Option String :=
  match n.scheduledAt with
  | none => (s, some "scheduled time is required")
  | some t =>
      let delay : Int := (t : Int) - (now : Int)
      if delay ≤ 0 then (s, some "scheduled time must be in the future")
      else
        ({ s with entries := s.entries ++ [(s.nextEntryId, n)],
                  jobs := insertJob s.jobs n.id s.nextEntryId,
                  nextEntryId := s.nextEntryId + 1 }, none)

/-- Number of delivery attempts recorded for the notification id `i`. -/
def sendCount (log : List SendEvent) (i : String) : Nat :=
  log.countP (fun ev => decide (ev.notification.id = i))

/-- The `jobs` map that mirrors an entry list exactly: one binding per cron
entry, keyed by the captured notification's id. -/
def derivedJobs (l : List (Nat × Notification)) : List (String × Nat) :=
  l.map (fun e => (e.2.id, e.1))

/-- Well-formedness of a scheduler state: pending notification ids are
pairwise distinct (the spec's id-uniqueness invariant), cron EntryIDs are
pairwise distinct and below the counter, and the `jobs` map holds exactly
one binding per cron entry, keyed by its notification's id. -/
def WF (s : SchedulerState) : Prop :=
  (s.entries.map (fun e => e.2.id)).Nodup ∧
  (s.entries.map Prod.fst).Nodup ∧
  s.jobs = derivedJobs s.entries ∧
  ∀ e ∈ s.entries, e.1 < s.nextEntryId

instance (s : SchedulerState) : Decidable (WF s) := by
  unfold WF; infer_instance

/-! ### Concrete inputs used by witnesses and counterexamples -/

/-- A notification with a unique id, scheduled for time 2. -/
def c1n : Notification :=
  { id := "w", title := "Weekly Report Ready", content := "report",
    channel := ChannelEmail, recipients := ["manager@company.com"],
    scheduledAt := some 2, createdAt := 0, sentAt := none }

/-- The scheduler state after admitting `c1n` at time 0 on a started
scheduler. -/
def c1State : SchedulerState :=
  (scheduleNotification NewSchedulerService.start 0 c1n).1

/-- First of two notifications sharing the id `x`, due at time 1. -/
def c1xA : Notification :=
  { id := "x", title := "A", content := "first", channel := ChannelSlack,
    recipients := ["u1"], scheduledAt := some 1, createdAt := 0,
    sentAt := none }

/-- Second notification with the same id `x`, due at time 2. -/
def c1xB : Notification :=
  { id := "x", title := "B", content := "second", channel := ChannelSlack,
    recipients := ["u2"], scheduledAt := some 2, createdAt := 0,
    sentAt := none }

/-- The scheduler state after admitting both same-id notifications. -/
def c1xState : SchedulerState :=
  (scheduleNotification
    (scheduleNotification NewSchedulerService.start 0 c1xA).1 0 c1xB).1

/-- An email-channel notification, due at time 1. -/
def c2n : Notification :=
  { id := "2", title := "Weekly Report Ready", content := "report",
    channel := ChannelEmail, recipients := ["hr@company.com"],
    scheduledAt := some 1, createdAt := 0, sentAt := none }

/-- The state after admitting `c2n` into a scheduler whose injected sender
is the slack service (exactly the wiring of `app.NewApp`, which builds the
scheduler used by the HTTP handler with the slack service as default). -/
def c2State : SchedulerState :=
  (scheduleNotification NewSchedulerService.start 0 c2n).1

/-- A slack notification due at time 2, used by the temporal witnesses. -/
def c6n : Notification :=
  { id := "6", title := "Reminder", content := "meeting",
    channel := ChannelSlack, recipients := ["user1"],
    scheduledAt := some 2, createdAt := 0, sentAt := none }

/-- The state after admitting `c6n` at time 0 on a started scheduler. -/
def c6State : SchedulerState :=
  (scheduleNotification NewSchedulerService.start 0 c6n).1

/-- A sender whose `Send` always reports a delivery error, as permitted by
the `NotificationService` interface the scheduler is constructed with. -/
def failingSender : Sender := ⟨"failing", fun _ => some "send failed"⟩

/-- A sender with the same tag that always succeeds. -/
def okSender : Sender := ⟨"failing", fun _ => none⟩

/-- A notification due at time 1, dispatched through `failingSender`. -/
def c9n : Notification :=
  { id := "9", title := "Delivery Update", content := "package",
    channel := ChannelMessage, recipients := ["+1234567890"],
    scheduledAt := some 1, createdAt := 0, sentAt := none }

/-- The state after admitting `c9n` at time 0 on a started scheduler. -/
def c9State : SchedulerState :=
  (scheduleNotification NewSchedulerService.start 0 c9n).1

/-- A slack notification due at time 2 whose `sentAt` is absent at
admission. -/
def c8n : Notification :=
  { id := "8", title := "Appointment Reminder", content := "see doctor",
    channel := ChannelSlack, recipients := ["+1987654321"],
    scheduledAt := some 2, createdAt := 0, sentAt := none }

/-- The state after admitting `c8n` at time 0 on a started scheduler. -/
def c8State : SchedulerState :=
  (scheduleNotification NewSchedulerService.start 0 c8n).1

/-- First notification with id `x`, due at time 1. -/
def c10A : Notification :=
  { id := "x", title := "first", content := "c", channel := ChannelSlack,
    recipients := ["u"], scheduledAt := some 1, createdAt := 0,
    sentAt := none }

/-- Second notification reusing id `x`, due at time 2. -/
def c10B : Notification :=
  { id := "x", title := "second", content := "c", channel := ChannelSlack,
    recipients := ["u"], scheduledAt := some 2, createdAt := 0,
    sentAt := none }

/-- The state after admitting `c10A`. -/
def c10StateA : SchedulerState :=
  (scheduleNotification NewSchedulerService.start 0 c10A).1

/-- The state after then admitting `c10B` with the same id. -/
def c10State : SchedulerState :=
  (scheduleNotification c10StateA 0 c10B).1

/-! ### Basic facts about the operations -/

theorem lookupSender_eq_none (c : NotificationChannel)
    (h1 : c ≠ ChannelSlack) (h2 : c ≠ ChannelEmail) (h3 : c ≠ ChannelMessage) :
    lookupSender NewNotificationServiceFactory c = none := by
  simp only [NewNotificationServiceFactory, lookupSender,
    if_neg (Ne.symm h1), if_neg (Ne.symm h2), if_neg (Ne.symm h3)]

/-! ### C3 -/

/-- C3: scheduling a notification whose `scheduledAt` is absent fails with
the `scheduled time is required` error (the `MissingScheduleTime` kind),
the notification is never admitted, and the scheduler state — in
particular the pending-jobs map — is returned unchanged. -/
theorem schedule_missing_time_rejected (s : SchedulerState) (now : Nat)
    (n : Notification) (h : n.scheduledAt = none) :
    scheduleNotification s now n = (s, some "scheduled time is required") := by
  simp [scheduleNotification, h]

/-- Witness for C3 at a concrete notification with `scheduledAt = none`. -/
theorem schedule_missing_time_rejected_witness :
    scheduleNotification NewSchedulerService 5
        { id := "e", title := "E", content := "c", channel := ChannelEmail,
          recipients := ["r"], scheduledAt := none, createdAt := 0,
          sentAt := none }
      = (NewSchedulerService, some "scheduled time is required") :=
  schedule_missing_time_rejected NewSchedulerService 5 _ rfl

/-! ### C4 -/

/-- C4: scheduling a notification whose `scheduledAt` is present but not
strictly after the current time (including exactly equal to `now`) fails
with the `scheduled time must be in the future` error (the
`PastScheduleTime` kind) and the state, hence the pending set, is returned
unchanged: the notification is never admitted. -/
theorem schedule_past_time_rejected (s : SchedulerState) (now : Nat)
    (n : Notification) (t : Nat) (h : n.scheduledAt = some t)
    (hle : t ≤ now) :
    scheduleNotification s now n
      = (s, some "scheduled time must be in the future") := by
  have hd : (t : Int) - (now : Int) ≤ 0 := by omega
  simp [scheduleNotification, h, hd]

/-- Witness for C4 at `scheduledAt` exactly equal to `now` (the boundary
case the claim calls out). -/
theorem schedule_past_time_rejected_witness :
    scheduleNotification NewSchedulerService 7
        { id := "d", title := "D", content := "c", channel := ChannelSlack,
          recipients := ["r"], scheduledAt := some 7, createdAt := 0,
          sentAt := none }
      = (NewSchedulerService, some "scheduled time must be in the future") :=
  schedule_past_time_rejected NewSchedulerService 7 _ 7 rfl (Nat.le_refl 7)

/-! ### C5 -/

/-- C5: `GetService` yields a sender exactly for the three registered
channel tags, and for every other tag it yields no sender, only the
`unsupported notification channel` error; the registry is a fixed value
(`NewNotificationServiceFactory`), so the lookup has no side effects. -/
theorem getService_spec (c : NotificationChannel) :
    ((∃ svc, GetService c = .ok svc)
        ↔ (c = ChannelSlack ∨ c = ChannelEmail ∨ c = ChannelMessage)) ∧
    (¬(c = ChannelSlack ∨ c = ChannelEmail ∨ c = ChannelMessage) →
      GetService c = .error ("unsupported notification channel: " ++ c)) := by
  by_cases h1 : c = ChannelSlack
  · subst h1
    exact ⟨⟨fun _ => Or.inl rfl, fun _ => ⟨_, rfl⟩⟩, fun h => absurd (Or.inl rfl) h⟩
  · by_cases h2 : c = ChannelEmail
    · subst h2
      exact ⟨⟨fun _ => Or.inr (Or.inl rfl), fun _ => ⟨_, rfl⟩⟩,
        fun h => absurd (Or.inr (Or.inl rfl)) h⟩
    · by_cases h3 : c = ChannelMessage
      · subst h3
        exact ⟨⟨fun _ => Or.inr (Or.inr rfl), fun _ => ⟨_, rfl⟩⟩,
          fun h => absurd (Or.inr (Or.inr rfl)) h⟩
      · have hnone := lookupSender_eq_none c h1 h2 h3
        constructor
        · constructor
          · rintro ⟨svc, hsvc⟩
            simp [GetService, hnone] at hsvc
          · rintro (rfl | rfl | rfl) <;> contradiction
        · intro _
          simp [GetService, hnone]

/-- Witness for C5: a registered tag resolves to a sender, and the
unregistered tag `invalid-channel` resolves to the error with no sender. -/
theorem getService_spec_witness :
    (∃ svc, GetService "slack" = .ok svc) ∧
    GetService "invalid-channel"
      = .error "unsupported notification channel: invalid-channel" :=
  ⟨(getService_spec "slack").1.mpr (Or.inl rfl),
   (getService_spec "invalid-channel").2 (by decide)⟩

/-! ### C7 -/

/-- C7: `Stop` only halts the background timing activity: the cron entry
list, the pending-jobs map and the delivery log are all left exactly as
they were — nothing pending is delivered or lost — and after `Stop` a wake
of the timing loop does nothing at all. -/
theorem stop_preserves_pending (s : SchedulerState) :
    (s.stop).entries = s.entries ∧ (s.stop).jobs = s.jobs ∧
    (s.stop).log = s.log ∧ (s.stop).running = false ∧
    ∀ svc now, tick svc s.stop now = s.stop :=
  ⟨rfl, rfl, rfl, rfl, fun _ _ => by simp [tick, SchedulerState.stop]⟩

/-! ### Structural lemmas about the dispatch path -/

theorem runDue_nil (svc : Sender) (now : Nat) (s : SchedulerState) :
    runDue svc now s [] = s := rfl

theorem runDue_cons (svc : Sender) (now : Nat) (s : SchedulerState)
    (e : Nat × Notification) (L : List (Nat × Notification)) :
    runDue svc now s (e :: L) = runDue svc now (runJob svc now s e.2) L := rfl

theorem runJob_log (svc : Sender) (now : Nat) (s : SchedulerState)
    (n : Notification) :
    (runJob svc now s n).log = s.log ++ [mkEvent svc now n] := by
  cases h : lookupJob s.jobs n.id <;> simp [runJob, h]

theorem runJob_entries_sublist (svc : Sender) (now : Nat) (s : SchedulerState)
    (n : Notification) :
    (runJob svc now s n).entries.Sublist s.entries := by
  cases h : lookupJob s.jobs n.id <;> simp [runJob, h, removeEntry]

theorem runJob_running (svc : Sender) (now : Nat) (s : SchedulerState)
    (n : Notification) : (runJob svc now s n).running = s.running := by
  cases h : lookupJob s.jobs n.id <;> simp [runJob, h]

theorem runJob_nextEntryId (svc : Sender) (now : Nat) (s : SchedulerState)
    (n : Notification) : (runJob svc now s n).nextEntryId = s.nextEntryId := by
  cases h : lookupJob s.jobs n.id <;> simp [runJob, h]

theorem runDue_log (svc : Sender) (now : Nat)
    (L : List (Nat × Notification)) :
    ∀ s : SchedulerState,
    (runDue svc now s L).log = s.log ++ L.map (fun e => mkEvent svc now e.2) := by
  induction L with
  | nil => intro s; simp [runDue_nil]
  | cons e L ih =>
      intro s
      rw [runDue_cons, ih, runJob_log]
      simp

theorem runDue_entries_sublist (svc : Sender) (now : Nat)
    (L : List (Nat × Notification)) :
    ∀ s : SchedulerState, (runDue svc now s L).entries.Sublist s.entries := by
  induction L with
  | nil => intro s; exact List.Sublist.refl _
  | cons e L ih =>
      intro s
      rw [runDue_cons]
      exact (ih _).trans (runJob_entries_sublist svc now s e.2)

theorem runDue_running (svc : Sender) (now : Nat)
    (L : List (Nat × Notification)) :
    ∀ s : SchedulerState, (runDue svc now s L).running = s.running := by
  induction L with
  | nil => intro s; rfl
  | cons e L ih =>
      intro s
      rw [runDue_cons, ih, runJob_running]

theorem runDue_nextEntryId (svc : Sender) (now : Nat)
    (L : List (Nat × Notification)) :
    ∀ s : SchedulerState, (runDue svc now s L).nextEntryId = s.nextEntryId := by
  induction L with
  | nil => intro s; rfl
  | cons e L ih =>
      intro s
      rw [runDue_cons, ih, runJob_nextEntryId]

/-! ### The jobs map mirrors the entry list on well-formed states -/

theorem lookupJob_derived {l : List (Nat × Notification)} {eid : Nat}
    {n : Notification} :
    (l.map (fun e => e.2.id)).Nodup → (eid, n) ∈ l →
    lookupJob (derivedJobs l) n.id = some eid := by
  induction l with
  | nil => intro _ h; cases h
  | cons e rest ih =>
      intro hnd hmem
      rw [List.map_cons] at hnd
      obtain ⟨hnotin, hnd'⟩ := List.nodup_cons.mp hnd
      rcases List.mem_cons.mp hmem with heq | hrest
      · cases heq
        simp [derivedJobs, lookupJob]
      · have hne : e.2.id ≠ n.id := by
          intro hcontra
          rw [hcontra] at hnotin
          exact hnotin (List.mem_map_of_mem (fun x => x.2.id) hrest)
        simp only [derivedJobs, List.map_cons, lookupJob, if_neg hne]
        exact ih hnd' hrest

theorem eraseJob_of_absent {l : List (String × Nat)} {i : String} :
    (∀ p ∈ l, p.1 ≠ i) → eraseJob l i = l := by
  induction l with
  | nil => intro _; rfl
  | cons p rest ih =>
      intro h
      have hp : p.1 ≠ i := h p (List.mem_cons_self ..)
      simp only [eraseJob]
      rw [if_neg hp, ih (fun q hq => h q (List.mem_cons_of_mem _ hq))]

theorem eraseJob_derived {l : List (Nat × Notification)} {eid : Nat}
    {n : Notification} :
    (l.map (fun e => e.2.id)).Nodup → (l.map Prod.fst).Nodup → (eid, n) ∈ l →
    eraseJob (derivedJobs l) n.id = derivedJobs (removeEntry l eid) := by
  induction l with
  | nil => intro _ _ h; cases h
  | cons e rest ih =>
      intro hids heids hmem
      rw [List.map_cons] at hids heids
      obtain ⟨hidnotin, hids'⟩ := List.nodup_cons.mp hids
      obtain ⟨heidnotin, heids'⟩ := List.nodup_cons.mp heids
      rcases List.mem_cons.mp hmem with heq | hrest
      · cases heq
        have hall : ∀ x ∈ rest, decide (x.1 ≠ eid) = true := by
          intro x hx
          simp only [decide_eq_true_iff]
          intro hc
          have hxm : x.1 ∈ List.map Prod.fst rest :=
            List.mem_map_of_mem Prod.fst hx
          rw [hc] at hxm
          exact heidnotin hxm
        simp only [derivedJobs, List.map_cons, eraseJob, removeEntry,
          List.filter_cons]
        rw [List.filter_eq_self.mpr hall]
        simp
      · have hne_id : e.2.id ≠ n.id := by
          intro hc
          rw [hc] at hidnotin
          exact hidnotin (List.mem_map_of_mem (fun x => x.2.id) hrest)
        have hne_eid : e.1 ≠ eid := by
          intro hc
          rw [hc] at heidnotin
          exact heidnotin (List.mem_map_of_mem Prod.fst hrest)
        have ih' := ih hids' heids' hrest
        simp only [derivedJobs, removeEntry] at ih' ⊢
        simp only [List.map_cons, eraseJob, if_neg hne_id, List.filter_cons]
        rw [if_pos (by simpa using hne_eid)]
        simp only [List.map_cons]
        rw [ih']

theorem WF_remove {s : SchedulerState} (hwf : WF s) (eid : Nat) (r : Bool)
    (lg : List SendEvent) :
    WF { entries := removeEntry s.entries eid,
         jobs := derivedJobs (removeEntry s.entries eid),
         nextEntryId := s.nextEntryId, running := r, log := lg } := by
  obtain ⟨hids, heids, _, hbound⟩ := hwf
  refine ⟨?_, ?_, rfl, ?_⟩
  · exact List.Sublist.nodup (List.Sublist.map _ (List.filter_sublist _)) hids
  · exact List.Sublist.nodup (List.Sublist.map _ (List.filter_sublist _)) heids
  · intro e he
    exact hbound e (List.mem_of_mem_filter he)

theorem runJob_char (svc : Sender) (now : Nat) {s : SchedulerState}
    (hwf : WF s) {eid : Nat} {n : Notification} (hmem : (eid, n) ∈ s.entries) :
    runJob svc now s n =
      { entries := removeEntry s.entries eid,
        jobs := derivedJobs (removeEntry s.entries eid),
        nextEntryId := s.nextEntryId, running := s.running,
        log := s.log ++ [mkEvent svc now n] } := by
  obtain ⟨hids, heids, hjobs, _⟩ := hwf
  have hl : lookupJob s.jobs n.id = some eid := by
    rw [hjobs]; exact lookupJob_derived hids hmem
  simp only [runJob, hl]
  rw [hjobs, eraseJob_derived hids heids hmem]

theorem runDue_char (svc : Sender) (now : Nat)
    (L : List (Nat × Notification)) :
    ∀ s : SchedulerState, WF s → (∀ e ∈ L, e ∈ s.entries) →
    (L.map (fun e => e.2.id)).Nodup →
    WF (runDue svc now s L) ∧
    (runDue svc now s L).entries
      = s.entries.filter (fun e => decide (e.1 ∉ L.map Prod.fst)) := by
  induction L with
  | nil =>
      intro s hwf _ _
      refine ⟨hwf, ?_⟩
      rw [runDue_nil]
      exact (List.filter_eq_self.mpr (fun a _ => by simp)).symm
  | cons e0 L ih =>
      intro s hwf hsub hnd
      obtain ⟨hids, heids, hjobs, hbound⟩ := hwf
      rw [List.map_cons] at hnd
      obtain ⟨hnotin, hnd'⟩ := List.nodup_cons.mp hnd
      have he0 : e0 ∈ s.entries := hsub e0 (List.mem_cons_self ..)
      have he0' : (e0.1, e0.2) ∈ s.entries := by
        rw [Prod.mk.eta]; exact he0
      have hchar := runJob_char svc now ⟨hids, heids, hjobs, hbound⟩ he0'
      have hwf1 : WF (runJob svc now s e0.2) := by
        rw [hchar]
        exact WF_remove ⟨hids, heids, hjobs, hbound⟩ e0.1 s.running _
      have hent1 : (runJob svc now s e0.2).entries
          = s.entries.filter (fun e => decide (e.1 ≠ e0.1)) := by
        rw [hchar]; rfl
      have hsub1 : ∀ e ∈ L, e ∈ (runJob svc now s e0.2).entries := by
        intro e he
        have hes : e ∈ s.entries := hsub e (List.mem_cons_of_mem _ he)
        have hneid : e.2.id ≠ e0.2.id := by
          intro hc
          rw [← hc] at hnotin
          exact hnotin (List.mem_map_of_mem (fun x => x.2.id) he)
        have hnefst : e.1 ≠ e0.1 := by
          intro hc
          have heq : e = e0 :=
            List.inj_on_of_nodup_map heids hes he0 hc
          rw [heq] at hneid
          exact hneid rfl
        rw [hent1]
        exact List.mem_filter.mpr ⟨hes, by simpa using hnefst⟩
      obtain ⟨hwfR, hentR⟩ := ih (runJob svc now s e0.2) hwf1 hsub1 hnd'
      rw [runDue_cons]
      refine ⟨hwfR, ?_⟩
      rw [hentR, hent1, List.filter_filter]
      refine List.filter_congr ?_
      intro x _
      simp only [List.map_cons, List.mem_cons, not_or, decide_not]
      cases hx0 : decide (x.1 = e0.1) <;>
        cases hxL : decide (x.1 ∈ List.map Prod.fst L) <;>
          simp_all

theorem tick_char (svc : Sender) {s : SchedulerState} (now : Nat)
    (hwf : WF s) (hrun : s.running = true) :
    WF (tick svc s now) ∧
    (tick svc s now).entries = s.entries.filter (fun e => !dueAt now e) ∧
    (tick svc s now).log
      = s.log ++ (s.entries.filter (dueAt now)).map (fun e => mkEvent svc now e.2) ∧
    (tick svc s now).running = true ∧
    (tick svc s now).nextEntryId = s.nextEntryId := by
  have htick : tick svc s now = runDue svc now s (s.entries.filter (dueAt now)) := by
    simp [tick, hrun]
  obtain ⟨hids, heids, hjobs, hbound⟩ := hwf
  have hsubL : ∀ e ∈ s.entries.filter (dueAt now), e ∈ s.entries :=
    fun e he => List.mem_of_mem_filter he
  have hndL : ((s.entries.filter (dueAt now)).map (fun e => e.2.id)).Nodup :=
    List.Sublist.nodup (List.Sublist.map _ (List.filter_sublist _)) hids
  obtain ⟨hwfR, hentR⟩ :=
    runDue_char svc now (s.entries.filter (dueAt now)) s
      ⟨hids, heids, hjobs, hbound⟩ hsubL hndL
  refine ⟨htick ▸ hwfR, ?_, ?_, ?_, ?_⟩
  · rw [htick, hentR]
    refine List.filter_congr ?_
    intro x hx
    by_cases hdue : dueAt now x = true
    · have hxm : x.1 ∈ (s.entries.filter (dueAt now)).map Prod.fst :=
        List.mem_map_of_mem Prod.fst (List.mem_filter.mpr ⟨hx, hdue⟩)
      simp [hxm, hdue]
    · have hb : dueAt now x = false := by
        cases hdb : dueAt now x
        · rfl
        · exact absurd hdb hdue
      have hxnot : x.1 ∉ (s.entries.filter (dueAt now)).map Prod.fst := by
        intro hc
        obtain ⟨y, hy, hyx⟩ := List.mem_map.mp hc
        have hys : y ∈ s.entries := List.mem_of_mem_filter hy
        have hyex : y = x := List.inj_on_of_nodup_map heids hys hx hyx
        rw [hyex] at hy
        have hcdue := (List.mem_filter.mp hy).2
        rw [hb] at hcdue
        cases hcdue
      simp [hxnot, hb]
  · rw [htick, runDue_log]
  · rw [htick, runDue_running]
    exact hrun
  · rw [htick]
    exact runDue_nextEntryId svc now _ s

/-! ### Counting delivery attempts -/

theorem ticks_nil (svc : Sender) (s : SchedulerState) :
    ticks svc s [] = s := rfl

theorem ticks_cons (svc : Sender) (s : SchedulerState) (x : Nat)
    (ts : List Nat) : ticks svc s (x :: ts) = ticks svc (tick svc s x) ts := rfl

theorem sendCount_append (l1 l2 : List SendEvent) (i : String) :
    sendCount (l1 ++ l2) i = sendCount l1 i + sendCount l2 i :=
  List.countP_append _ l1 l2

theorem sendCount_events (svc : Sender) (now : Nat)
    (L : List (Nat × Notification)) (i : String) :
    sendCount (L.map (fun e => mkEvent svc now e.2)) i
      = List.count i (L.map (fun e => e.2.id)) := by
  simp only [sendCount, List.count_eq_countP, List.countP_map]
  refine List.countP_congr ?_
  intro x _
  simp [mkEvent, Function.comp]

theorem tick_absent (svc : Sender) (s : SchedulerState) (now : Nat)
    (i : String) (h : ∀ e ∈ s.entries, e.2.id ≠ i) :
    sendCount (tick svc s now).log i = sendCount s.log i ∧
    ∀ e ∈ (tick svc s now).entries, e.2.id ≠ i := by
  by_cases hrun : s.running
  · have htick : tick svc s now
        = runDue svc now s (s.entries.filter (dueAt now)) := by
      simp [tick, hrun]
    constructor
    · rw [htick, runDue_log, sendCount_append, sendCount_events]
      have hzero : List.count i
          ((s.entries.filter (dueAt now)).map (fun e => e.2.id)) = 0 := by
        refine List.count_eq_zero_of_not_mem ?_
        intro hc
        obtain ⟨y, hy, hyi⟩ := List.mem_map.mp hc
        exact h y (List.mem_of_mem_filter hy) hyi
      rw [hzero]
      simp
    · intro e he
      rw [htick] at he
      exact h e (List.Sublist.subset (runDue_entries_sublist svc now _ s) he)
  · have htick : tick svc s now = s := by simp [tick, hrun]
    rw [htick]
    exact ⟨rfl, h⟩

theorem ticks_absent (svc : Sender) (times : List Nat) :
    ∀ (s : SchedulerState) (i : String), (∀ e ∈ s.entries, e.2.id ≠ i) →
    sendCount (ticks svc s times).log i = sendCount s.log i ∧
    ∀ e ∈ (ticks svc s times).entries, e.2.id ≠ i := by
  induction times with
  | nil => intro s i h; exact ⟨rfl, h⟩
  | cons x ts ih =>
      intro s i h
      obtain ⟨hc, habs⟩ := tick_absent svc s x i h
      obtain ⟨hc', habs'⟩ := ih (tick svc s x) i habs
      rw [ticks_cons]
      exact ⟨hc'.trans hc, habs'⟩

theorem tick_fires (svc : Sender) {s : SchedulerState} {eid : Nat}
    {n : Notification} {t now : Nat} (hwf : WF s) (hrun : s.running = true)
    (hmem : (eid, n) ∈ s.entries) (ht : n.scheduledAt = some t)
    (hnow : t ≤ now) :
    sendCount (tick svc s now).log n.id = sendCount s.log n.id + 1 ∧
    ∀ e ∈ (tick svc s now).entries, e.2.id ≠ n.id := by
  obtain ⟨hwfR, hent, hlog, hrunR, _⟩ := tick_char svc now hwf hrun
  have hdue : dueAt now (eid, n) = true := by
    simp [dueAt, ht, hnow]
  have hnin : (eid, n) ∈ s.entries.filter (dueAt now) :=
    List.mem_filter.mpr ⟨hmem, hdue⟩
  obtain ⟨hids, heids, _, _⟩ := hwf
  have hndL : ((s.entries.filter (dueAt now)).map (fun e => e.2.id)).Nodup :=
    List.Sublist.nodup (List.Sublist.map _ (List.filter_sublist _)) hids
  constructor
  · rw [hlog, sendCount_append, sendCount_events]
    have hidin : n.id ∈ (s.entries.filter (dueAt now)).map (fun e => e.2.id) :=
      List.mem_map_of_mem (fun e => e.2.id) hnin
    rw [List.count_eq_one_of_mem hndL hidin]
  · intro e he
    rw [hent] at he
    obtain ⟨hes, hnotdue⟩ := List.mem_filter.mp he
    intro hcid
    have heeq : e = (eid, n) := by
      refine List.inj_on_of_nodup_map hids hes hmem ?_
      exact hcid
    rw [heeq] at hnotdue
    rw [hdue] at hnotdue
    cases hnotdue

theorem tick_not_due (svc : Sender) {s : SchedulerState} {eid : Nat}
    {n : Notification} {t now : Nat} (hwf : WF s) (hrun : s.running = true)
    (hmem : (eid, n) ∈ s.entries) (ht : n.scheduledAt = some t)
    (hnow : now < t) :
    sendCount (tick svc s now).log n.id = sendCount s.log n.id ∧
    (eid, n) ∈ (tick svc s now).entries ∧
    WF (tick svc s now) ∧ (tick svc s now).running = true := by
  obtain ⟨hwfR, hent, hlog, hrunR, _⟩ := tick_char svc now hwf hrun
  have hdue : dueAt now (eid, n) = false := by
    simp [dueAt, ht]
    omega
  obtain ⟨hids, heids, _, _⟩ := hwf
  refine ⟨?_, ?_, hwfR, hrunR⟩
  · rw [hlog, sendCount_append, sendCount_events]
    have hzero : List.count n.id
        ((s.entries.filter (dueAt now)).map (fun e => e.2.id)) = 0 := by
      refine List.count_eq_zero_of_not_mem ?_
      intro hc
      obtain ⟨y, hy, hyi⟩ := List.mem_map.mp hc
      have hys : y ∈ s.entries := List.mem_of_mem_filter hy
      have hyeq : y = (eid, n) := List.inj_on_of_nodup_map hids hys hmem hyi
      rw [hyeq] at hy
      have hcdue := (List.mem_filter.mp hy).2
      rw [hdue] at hcdue
      cases hcdue
    rw [hzero]
    simp
  · rw [hent]
    refine List.mem_filter.mpr ⟨hmem, ?_⟩
    rw [hdue]
    rfl

/-- Exactly-once over an arbitrary sequence of wakes, for a pending
notification whose id is unique among pending notifications (part of
well-formedness): its sender is invoked exactly once if some wake happens
at or after its scheduled time, and never before. -/
theorem ticks_exactly_once (svc : Sender) (times : List Nat) :
    ∀ {s : SchedulerState} {eid : Nat} {n : Notification} {t : Nat},
    WF s → s.running = true → (eid, n) ∈ s.entries →
    n.scheduledAt = some t →
    sendCount (ticks svc s times).log n.id
      = sendCount s.log n.id
        + (if times.any (fun x => decide (t ≤ x)) then 1 else 0) := by
  induction times with
  | nil =>
      intro s eid n t _ _ _ _
      simp [ticks_nil]
  | cons x ts ih =>
      intro s eid n t hwf hrun hmem ht
      rw [ticks_cons]
      by_cases hx : t ≤ x
      · obtain ⟨hcount, habs⟩ := tick_fires svc hwf hrun hmem ht hx
        obtain ⟨hconst, _⟩ := ticks_absent svc ts (tick svc s x) n.id habs
        rw [hconst, hcount]
        have hany : (x :: ts).any (fun y => decide (t ≤ y)) = true := by
          simp [List.any_cons, hx]
        rw [hany]
        simp
      · have hlt : x < t := Nat.lt_of_not_le hx
        obtain ⟨hcount, hmem', hwf', hrun'⟩ :=
          tick_not_due svc hwf hrun hmem ht hlt
        rw [ih hwf' hrun' hmem' ht, hcount]
        have hany : (x :: ts).any (fun y => decide (t ≤ y))
            = ts.any (fun y => decide (t ≤ y)) := by
          simp [List.any_cons, hx]
        rw [hany]

/-! ### Admission -/

theorem schedule_admits {s : SchedulerState} {now : Nat} {n : Notification}
    {t : Nat} (ht : n.scheduledAt = some t) (hfut : now < t) :
    scheduleNotification s now n
      = ({ s with entries := s.entries ++ [(s.nextEntryId, n)],
                  jobs := insertJob s.jobs n.id s.nextEntryId,
                  nextEntryId := s.nextEntryId + 1 }, none) := by
  have hd : ¬((t : Int) - (now : Int) ≤ 0) := by omega
  simp [scheduleNotification, ht, hd]

theorem WF_schedule {s : SchedulerState} {n : Notification}
    (hwf : WF s) (hfresh : ∀ e ∈ s.entries, e.2.id ≠ n.id) :
    WF { s with entries := s.entries ++ [(s.nextEntryId, n)],
                jobs := insertJob s.jobs n.id s.nextEntryId,
                nextEntryId := s.nextEntryId + 1 } := by
  obtain ⟨hids, heids, hjobs, hbound⟩ := hwf
  refine ⟨?_, ?_, ?_, ?_⟩
  · rw [List.map_append]
    refine List.Nodup.append hids (by simp) ?_
    intro a ha hb
    obtain ⟨e, he, hei⟩ := List.mem_map.mp ha
    have hbn : a = n.id := by simpa using hb
    rw [hbn] at hei
    exact hfresh e he hei
  · rw [List.map_append]
    refine List.Nodup.append heids (by simp) ?_
    intro a ha hb
    obtain ⟨e, he, hei⟩ := List.mem_map.mp ha
    have hbn : a = s.nextEntryId := by simpa using hb
    rw [hbn] at hei
    have := hbound e he
    omega
  · show insertJob s.jobs n.id s.nextEntryId
        = derivedJobs (s.entries ++ [(s.nextEntryId, n)])
    rw [insertJob, hjobs]
    have herase : eraseJob (derivedJobs s.entries) n.id
        = derivedJobs s.entries := by
      refine eraseJob_of_absent ?_
      intro p hp
      obtain ⟨e, he, hei⟩ := List.mem_map.mp hp
      rw [← hei]
      exact hfresh e he
    rw [herase]
    simp [derivedJobs]
  · intro e he
    rcases List.mem_append.mp he with hl | hr
    · have := hbound e hl
      simp only []
      omega
    · have : e = (s.nextEntryId, n) := by simpa using hr
      rw [this]
      simp

/-! ### C1 -/

/-- C1 (amended): for every notification accepted by
`scheduleNotification` *whose id is not shared with any other pending
notification* (the spec's id-uniqueness invariant), the dispatch path
invokes the injected sender's `Send` on it exactly once across all
subsequent wakes of the timing loop: exactly one delivery event is added
once some wake occurs at or after its scheduled time, and none at all
before then — never twice, never zero while the loop keeps waking through
the scheduled time. -/
theorem scheduled_fires_exactly_once (svc : Sender) (times : List Nat)
    {s s' : SchedulerState} {now : Nat} {n : Notification} {t : Nat}
    (hwf : WF s) (hrun : s.running = true)
    (hfresh : ∀ e ∈ s.entries, e.2.id ≠ n.id)
    (ht : n.scheduledAt = some t)
    (hsched : scheduleNotification s now n = (s', none)) :
    sendCount (ticks svc s' times).log n.id
      = sendCount s.log n.id
        + (if times.any (fun x => decide (t ≤ x)) then 1 else 0) := by
  by_cases hfut : now < t
  · rw [schedule_admits ht hfut] at hsched
    injection hsched with h1 h2
    subst h1
    have hwf' := WF_schedule hwf hfresh (n := n)
    have hmem' : (s.nextEntryId, n)
        ∈ (s.entries ++ [(s.nextEntryId, n)] : List (Nat × Notification)) :=
      List.mem_append_right _ (List.mem_singleton.mpr rfl)
    exact ticks_exactly_once svc times hwf' hrun hmem' ht
  · have hle : t ≤ now := Nat.le_of_not_lt hfut
    have hd : (t : Int) - (now : Int) ≤ 0 := by omega
    simp [scheduleNotification, ht, hd] at hsched

/-- Witness for C1 (amended) at a concrete run: a fresh started scheduler,
one notification due at time 2, wakes at times 1, 2, 3. -/
theorem scheduled_fires_exactly_once_witness :
    sendCount (ticks SlackNotificationService c1State [1, 2, 3]).log "w"
      = sendCount NewSchedulerService.start.log "w"
        + (if [1, 2, 3].any (fun x => decide (2 ≤ x)) then 1 else 0) :=
  @scheduled_fires_exactly_once SlackNotificationService [1, 2, 3]
    NewSchedulerService.start c1State 0 c1n 2
    (by decide) rfl (by decide) rfl rfl

/-- Counterexample to C1 as stated: both same-id notifications `c1xA`
(due at 1) and `c1xB` (due at 2) are accepted by `scheduleNotification`,
yet across the wakes at times 1 and 2 the first is dispatched twice (its
cron entry survives its own firing, because the firing removed the map
entry that had been overwritten to point at the second cron entry) and the
second is never dispatched at all even though its time has passed. -/
theorem duplicate_id_breaks_exactly_once :
    (scheduleNotification NewSchedulerService.start 0 c1xA).2 = none ∧
    (scheduleNotification
        (scheduleNotification NewSchedulerService.start 0 c1xA).1 0 c1xB).2
      = none ∧
    (ticks SlackNotificationService c1xState [1, 2]).log.countP
        (fun ev => decide (ev.notification = c1xA)) = 2 ∧
    (ticks SlackNotificationService c1xState [1, 2]).log.countP
        (fun ev => decide (ev.notification = c1xB)) = 0 := by
  refine ⟨rfl, rfl, ?_, ?_⟩ <;> decide

/-! ### C6 -/

/-- C6: the timing loop never dispatches early.  Every delivery event a
wake adds to the log (beyond what was already there) belongs to a
notification whose scheduled time `t` satisfies `t ≤ now`, and the event
is stamped with the wake time itself: `Send` is invoked only when the
current time is at or after the notification's `scheduledAt`. -/
theorem dispatch_never_early (svc : Sender) (s : SchedulerState) (now : Nat) :
    ∀ ev ∈ (tick svc s now).log, ev ∈ s.log ∨
      ∃ t, ev.notification.scheduledAt = some t ∧ t ≤ now ∧ ev.time = now := by
  by_cases hrun : s.running
  · have htick : tick svc s now
        = runDue svc now s (s.entries.filter (dueAt now)) := by
      simp [tick, hrun]
    intro ev hev
    rw [htick, runDue_log] at hev
    rcases List.mem_append.mp hev with hl | hr
    · exact Or.inl hl
    · obtain ⟨e, he, heq⟩ := List.mem_map.mp hr
      have hdue := (List.mem_filter.mp he).2
      right
      cases hsch : e.2.scheduledAt with
      | none => simp [dueAt, hsch] at hdue
      | some t =>
          simp only [dueAt, hsch, decide_eq_true_iff] at hdue
          refine ⟨t, ?_, hdue, ?_⟩
          · rw [← heq]
            exact hsch
          · rw [← heq]
            rfl
  · intro ev hev
    simp only [tick, hrun, if_false] at hev
    exact Or.inl hev

/-- Witness for C6: the wake at time 2 fires `c6n` (scheduled for 2), and
the theorem yields that this event is time-stamped 2 with `scheduledAt`
at most 2. -/
theorem dispatch_never_early_witness :
    (⟨c6n, "slack", 2, none⟩ : SendEvent) ∈ c6State.log ∨
      ∃ t, (⟨c6n, "slack", 2, none⟩ : SendEvent).notification.scheduledAt
            = some t ∧ t ≤ 2 ∧
          (⟨c6n, "slack", 2, none⟩ : SendEvent).time = 2 :=
  dispatch_never_early SlackNotificationService c6State 2
    ⟨c6n, "slack", 2, none⟩ (by decide)

/-! ### C2 -/

/-- Counterexample to C2 as stated: the scheduler the HTTP handler uses is
built by `app.NewApp` with the *slack* service as its injected sender, and
`ScheduleNotification` dispatches through that injected sender without
consulting the registry.  The email-channel notification `c2n` admitted to
such a scheduler fires and is delivered by the slack service, even though
the registry maps the `email` tag to the email service. -/
theorem scheduled_email_delivered_by_slack_sender :
    c2n.channel = ChannelEmail ∧
    GetService ChannelEmail = .ok EmailNotificationService ∧
    (tick SlackNotificationService c2State 1).log
      = [⟨c2n, "slack", 1, none⟩] ∧
    SlackNotificationService.tag ≠ EmailNotificationService.tag := by
  refine ⟨rfl, rfl, by decide, by decide⟩

/-- C2 (amended): for every fired notification, dispatch invokes `Send` on
the single `NotificationService` injected at scheduler construction — it
records that sender's tag and that sender's outcome, whatever the
notification's `channel` is.  Channel-based resolution through the
`SenderRegistry` happens only where the caller chooses which sender to
construct a scheduler with, never on the dispatch path. -/
theorem dispatch_uses_injected_sender (svc : Sender) (s : SchedulerState)
    (now : Nat) :
    ∀ ev ∈ (tick svc s now).log, ev ∈ s.log ∨
      (ev.senderTag = svc.tag ∧ ev.errMsg = svc.send ev.notification) := by
  by_cases hrun : s.running
  · have htick : tick svc s now
        = runDue svc now s (s.entries.filter (dueAt now)) := by
      simp [tick, hrun]
    intro ev hev
    rw [htick, runDue_log] at hev
    rcases List.mem_append.mp hev with hl | hr
    · exact Or.inl hl
    · obtain ⟨e, he, heq⟩ := List.mem_map.mp hr
      right
      rw [← heq]
      exact ⟨rfl, rfl⟩
  · intro ev hev
    simp only [tick, hrun, if_false] at hev
    exact Or.inl hev

/-- Witness for C2 (amended): the email-channel notification fired by a
slack-injected scheduler yields an event tagged with the injected slack
sender. -/
theorem dispatch_uses_injected_sender_witness :
    (⟨c2n, "slack", 1, none⟩ : SendEvent) ∈ c2State.log ∨
      ((⟨c2n, "slack", 1, none⟩ : SendEvent).senderTag
          = SlackNotificationService.tag ∧
       (⟨c2n, "slack", 1, none⟩ : SendEvent).errMsg
          = SlackNotificationService.send
              (⟨c2n, "slack", 1, none⟩ : SendEvent).notification) :=
  dispatch_uses_injected_sender SlackNotificationService c2State 1
    ⟨c2n, "slack", 1, none⟩ (by decide)

/-! ### C8 -/

/-- Counterexample to C8 as stated: `c8n` (admitted with `sentAt` absent)
fires at the wake at time 2 — the delivery attempt is made and recorded —
yet the notification value carried through dispatch still has
`sentAt = none`: nothing in the dispatch path assigns `sentAt`, so it does
not transition to the attempt time. -/
theorem fired_notification_sentAt_still_absent :
    (ticks SlackNotificationService c8State [2]).log
      = [⟨c8n, "slack", 2, none⟩] ∧
    c8n.sentAt = none ∧
    (∀ ev ∈ (ticks SlackNotificationService c8State [2]).log,
      ev.notification.sentAt = none) := by
  refine ⟨by decide, rfl, by decide⟩

/-- C8 (amended): the dispatch path never writes `sentAt`.  If every
pending notification has `sentAt` absent (as every notification admitted
by the repository's callers does), then every delivery event a wake
produces carries the notification with `sentAt` still absent, and every
notification still pending after the wake also has `sentAt` absent: the
field is declared in the data model but never set anywhere. -/
theorem dispatch_never_sets_sentAt (svc : Sender) (s : SchedulerState)
    (now : Nat) (h : ∀ e ∈ s.entries, e.2.sentAt = none) :
    (∀ ev ∈ (tick svc s now).log,
        ev ∈ s.log ∨ ev.notification.sentAt = none) ∧
    (∀ e ∈ (tick svc s now).entries, e.2.sentAt = none) := by
  by_cases hrun : s.running
  · have htick : tick svc s now
        = runDue svc now s (s.entries.filter (dueAt now)) := by
      simp [tick, hrun]
    constructor
    · intro ev hev
      rw [htick, runDue_log] at hev
      rcases List.mem_append.mp hev with hl | hr
      · exact Or.inl hl
      · obtain ⟨e, he, heq⟩ := List.mem_map.mp hr
        right
        rw [← heq]
        exact h e (List.mem_of_mem_filter he)
    · intro e he
      rw [htick] at he
      exact h e
        (List.Sublist.subset (runDue_entries_sublist svc now _ s) he)
  · have htick : tick svc s now = s := by simp [tick, hrun]
    rw [htick]
    exact ⟨fun ev hev => Or.inl hev, h⟩

/-- Witness for C8 (amended) on the concrete state holding `c8n`: the
event produced by the wake at time 2 carries `sentAt = none`. -/
theorem dispatch_never_sets_sentAt_witness :
    (⟨c8n, "slack", 2, none⟩ : SendEvent) ∈ c8State.log ∨
      (⟨c8n, "slack", 2, none⟩ : SendEvent).notification.sentAt = none :=
  (dispatch_never_sets_sentAt SlackNotificationService c8State 2
      (by decide)).1 ⟨c8n, "slack", 2, none⟩ (by decide)

/-! ### C9 -/

theorem runJob_bookkeeping_indep (svc1 svc2 : Sender) (now : Nat)
    (s1 s2 : SchedulerState) (n : Notification)
    (hent : s1.entries = s2.entries) (hjobs : s1.jobs = s2.jobs) :
    (runJob svc1 now s1 n).entries = (runJob svc2 now s2 n).entries ∧
    (runJob svc1 now s1 n).jobs = (runJob svc2 now s2 n).jobs := by
  have h2 : lookupJob s2.jobs n.id = lookupJob s1.jobs n.id := by
    rw [hjobs]
  cases h : lookupJob s1.jobs n.id with
  | none =>
      rw [h] at h2
      simp only [runJob, h, h2]
      exact ⟨hent, hjobs⟩
  | some a =>
      rw [h] at h2
      simp only [runJob, h, h2]
      exact ⟨by rw [hent], by rw [hjobs]⟩

theorem runDue_bookkeeping_indep (svc1 svc2 : Sender) (now : Nat)
    (L : List (Nat × Notification)) :
    ∀ s1 s2 : SchedulerState, s1.entries = s2.entries → s1.jobs = s2.jobs →
    (runDue svc1 now s1 L).entries = (runDue svc2 now s2 L).entries ∧
    (runDue svc1 now s1 L).jobs = (runDue svc2 now s2 L).jobs := by
  induction L with
  | nil => intro s1 s2 hent hjobs; exact ⟨hent, hjobs⟩
  | cons e L ih =>
      intro s1 s2 hent hjobs
      rw [runDue_cons, runDue_cons]
      obtain ⟨hent', hjobs'⟩ :=
        runJob_bookkeeping_indep svc1 svc2 now s1 s2 e.2 hent hjobs
      exact ih (runJob svc1 now s1 e.2) (runJob svc2 now s2 e.2) hent' hjobs'

/-- C9: a `Send` error during dispatch is contained in the scheduler.  The
error is recorded in the scheduler's own reporting (the delivery event
carries exactly the sender's error); the wake returns no error to anyone —
in particular not to the caller of `scheduleNotification`, whose call
already returned success at admission; and the pending-set bookkeeping
(cron entries and jobs map) evolves exactly as it would with an
always-succeeding sender of the same tag: the fired notification is
removed the same way, nothing is re-admitted, and no retry entry exists
(the surviving entries are a subset of the previous ones). -/
theorem send_failure_contained (svc : Sender) (s : SchedulerState)
    (now : Nat) :
    (∀ ev ∈ (tick svc s now).log,
        ev ∈ s.log ∨ ev.errMsg = svc.send ev.notification) ∧
    (tick svc s now).entries
      = (tick ⟨svc.tag, fun _ => none⟩ s now).entries ∧
    (tick svc s now).jobs = (tick ⟨svc.tag, fun _ => none⟩ s now).jobs ∧
    (∀ e ∈ (tick svc s now).entries, e ∈ s.entries) := by
  by_cases hrun : s.running
  · have htick : tick svc s now
        = runDue svc now s (s.entries.filter (dueAt now)) := by
      simp [tick, hrun]
    have htick2 : tick ⟨svc.tag, fun _ => none⟩ s now
        = runDue ⟨svc.tag, fun _ => none⟩ now s
            (s.entries.filter (dueAt now)) := by
      simp [tick, hrun]
    obtain ⟨hent, hjobs⟩ :=
      runDue_bookkeeping_indep svc ⟨svc.tag, fun _ => none⟩ now
        (s.entries.filter (dueAt now)) s s rfl rfl
    refine ⟨?_, by rw [htick, htick2]; exact hent,
      by rw [htick, htick2]; exact hjobs, ?_⟩
    · intro ev hev
      rw [htick, runDue_log] at hev
      rcases List.mem_append.mp hev with hl | hr
      · exact Or.inl hl
      · obtain ⟨e, he, heq⟩ := List.mem_map.mp hr
        right
        rw [← heq]
        rfl
    · intro e he
      rw [htick] at he
      exact List.Sublist.subset (runDue_entries_sublist svc now _ s) he
  · have htick : tick svc s now = s := by simp [tick, hrun]
    have htick2 : tick ⟨svc.tag, fun _ => none⟩ s now = s := by
      simp [tick, hrun]
    rw [htick, htick2]
    exact ⟨fun ev hev => Or.inl hev, rfl, rfl, fun e he => he⟩

/-- Witness for C9 at a sender that always fails: the failure is recorded
in the event, and the pending bookkeeping after the firing wake matches
the always-succeeding sender's. -/
theorem send_failure_contained_witness :
    ((⟨c9n, "failing", 1, some "send failed"⟩ : SendEvent) ∈ c9State.log ∨
      (⟨c9n, "failing", 1, some "send failed"⟩ : SendEvent).errMsg
        = failingSender.send
            (⟨c9n, "failing", 1, some "send failed"⟩ : SendEvent).notification) ∧
    (tick failingSender c9State 1).entries
      = (tick okSender c9State 1).entries :=
  ⟨(send_failure_contained failingSender c9State 1).1
      ⟨c9n, "failing", 1, some "send failed"⟩ (by decide),
   (send_failure_contained failingSender c9State 1).2.1⟩

/-! ### C10 -/

theorem lookupJob_eq_none_of_absent {l : List (String × Nat)} {i : String}
    (h : ∀ p ∈ l, p.1 ≠ i) : lookupJob l i = none := by
  induction l with
  | nil => rfl
  | cons p rest ih =>
      simp only [lookupJob]
      rw [if_neg (h p (List.mem_cons_self ..))]
      exact ih (fun q hq => h q (List.mem_cons_of_mem _ hq))

theorem lookupJob_append_absent {l1 l2 : List (String × Nat)} {i : String}
    (h : ∀ p ∈ l1, p.1 ≠ i) :
    lookupJob (l1 ++ l2) i = lookupJob l2 i := by
  induction l1 with
  | nil => rfl
  | cons p rest ih =>
      simp only [List.cons_append, lookupJob]
      rw [if_neg (h p (List.mem_cons_self ..))]
      exact ih (fun q hq => h q (List.mem_cons_of_mem _ hq))

theorem eraseJob_append_absent {l1 l2 : List (String × Nat)} {i : String}
    (h : ∀ p ∈ l1, p.1 ≠ i) :
    eraseJob (l1 ++ l2) i = l1 ++ eraseJob l2 i := by
  induction l1 with
  | nil => rfl
  | cons p rest ih =>
      simp only [List.cons_append, eraseJob]
      rw [if_neg (h p (List.mem_cons_self ..))]
      show p :: eraseJob (rest ++ l2) i = p :: (rest ++ eraseJob l2 i)
      exact congrArg (p :: ·)
        (ih (fun q hq => h q (List.mem_cons_of_mem _ hq)))

/-- C10: `scheduleNotification` never rejects a duplicate id.  For *every*
well-formed running scheduler, every pending-to-be notification `n1` and
every `n2` reusing its id with a future scheduled time, both admissions
succeed; the jobs-map binding for the shared id is silently overwritten
with the second cron entry id (the first cron entry is a different id and
so is no longer reachable from the map); and at the first firing — any
wake at which `n1` is due, `n2` is not yet, and nothing else is due — the
job removes the entry id currently stored in the map (the second
notification's cron entry) rather than its own: the first notification's
entry survives its own firing while the map binding is gone. -/
theorem duplicate_id_admitted_overwrites_map (svc : Sender)
    (s : SchedulerState) (now1 now2 w : Nat) (n1 n2 : Notification)
    (t1 t2 : Nat) (hwf : WF s) (hrun : s.running = true)
    (hfresh : ∀ e ∈ s.entries, e.2.id ≠ n1.id)
    (ht1 : n1.scheduledAt = some t1) (ht2 : n2.scheduledAt = some t2)
    (hid : n2.id = n1.id) (hnow1 : now1 < t1) (hnow2 : now2 < t2)
    (hw1 : t1 ≤ w) (hw2 : w < t2)
    (hquiet : ∀ e ∈ s.entries, dueAt w e = false) :
    (scheduleNotification s now1 n1).2 = none ∧
    ∀ s1, scheduleNotification s now1 n1 = (s1, none) →
      (scheduleNotification s1 now2 n2).2 = none ∧
      ∀ s2, scheduleNotification s1 now2 n2 = (s2, none) →
        lookupJob s2.jobs n1.id = some s1.nextEntryId ∧
        s.nextEntryId ≠ s1.nextEntryId ∧
        (s.nextEntryId, n1) ∈ s2.entries ∧
        (s1.nextEntryId, n2) ∈ s2.entries ∧
        (s.nextEntryId, n1) ∈ (tick svc s2 w).entries ∧
        (∀ e ∈ (tick svc s2 w).entries, e.1 ≠ s1.nextEntryId) ∧
        lookupJob (tick svc s2 w).jobs n1.id = none ∧
        (tick svc s2 w).log = s.log ++ [mkEvent svc w n1] := by
  obtain ⟨hids, heids, hjobs, hbound⟩ := hwf
  have hkeys : ∀ p ∈ s.jobs, p.1 ≠ n1.id := by
    rw [hjobs]
    intro p hp
    obtain ⟨e, he, hpe⟩ := List.mem_map.mp hp
    rw [← hpe]
    exact hfresh e he
  have hadm1 := @schedule_admits s now1 n1 t1 ht1 hnow1
  refine ⟨by rw [hadm1], ?_⟩
  intro s1 hs1
  rw [hadm1] at hs1
  injection hs1 with h1 hx1
  subst h1
  have hadm2 := @schedule_admits
    { s with entries := s.entries ++ [(s.nextEntryId, n1)],
             jobs := insertJob s.jobs n1.id s.nextEntryId,
             nextEntryId := s.nextEntryId + 1 } now2 n2 t2 ht2 hnow2
  refine ⟨by rw [hadm2], ?_⟩
  intro s2 hs2
  rw [hadm2] at hs2
  injection hs2 with h2 hx2
  subst h2
  dsimp only
  -- the jobs map after both admissions
  have hJ1 : insertJob s.jobs n1.id s.nextEntryId
      = s.jobs ++ [(n1.id, s.nextEntryId)] := by
    rw [insertJob, eraseJob_of_absent hkeys]
  have hJ2 : insertJob (insertJob s.jobs n1.id s.nextEntryId) n2.id
        (s.nextEntryId + 1)
      = s.jobs ++ [(n1.id, s.nextEntryId + 1)] := by
    rw [hJ1, insertJob, hid, eraseJob_append_absent hkeys]
    simp [eraseJob]
  have hlook : lookupJob (s.jobs ++ [(n1.id, s.nextEntryId + 1)]) n1.id
      = some (s.nextEntryId + 1) := by
    rw [lookupJob_append_absent hkeys]
    simp [lookupJob]
  -- the entries due at the wake `w`: exactly the first notification
  have hd1 : dueAt w (s.nextEntryId, n1) = true := by
    simp [dueAt, ht1, hw1]
  have hd2 : dueAt w (s.nextEntryId + 1, n2) = false := by
    simp only [dueAt, ht2, decide_eq_false_iff_not]
    omega
  have hfilter : ((s.entries ++ [(s.nextEntryId, n1)])
        ++ [(s.nextEntryId + 1, n2)]).filter (dueAt w)
      = [(s.nextEntryId, n1)] := by
    rw [List.filter_append, List.filter_append]
    rw [List.filter_eq_nil_iff.mpr (fun e he => by rw [hquiet e he]; simp)]
    simp [List.filter_cons, hd1, hd2]
  -- the tick runs exactly the first notification's job
  have htick : tick svc
      { entries := (s.entries ++ [(s.nextEntryId, n1)])
          ++ [(s.nextEntryId + 1, n2)],
        jobs := insertJob (insertJob s.jobs n1.id s.nextEntryId) n2.id
          (s.nextEntryId + 1),
        nextEntryId := s.nextEntryId + 1 + 1, running := s.running,
        log := s.log } w
      = { entries := removeEntry ((s.entries ++ [(s.nextEntryId, n1)])
            ++ [(s.nextEntryId + 1, n2)]) (s.nextEntryId + 1),
          jobs := eraseJob (s.jobs ++ [(n1.id, s.nextEntryId + 1)]) n1.id,
          nextEntryId := s.nextEntryId + 1 + 1, running := s.running,
          log := s.log ++ [mkEvent svc w n1] } := by
    simp only [tick, hrun, if_true]
    rw [hfilter, runDue_cons, runDue_nil]
    simp only [runJob, hJ2, hlook]
  have herase : eraseJob (s.jobs ++ [(n1.id, s.nextEntryId + 1)]) n1.id
      = s.jobs := by
    rw [eraseJob_append_absent hkeys]
    simp [eraseJob]
  refine ⟨?_, by omega, ?_, ?_, ?_, ?_, ?_, ?_⟩
  · rw [hJ2]
    exact hlook
  · exact List.mem_append_left _
      (List.mem_append_right _ (List.mem_singleton.mpr rfl))
  · exact List.mem_append_right _ (List.mem_singleton.mpr rfl)
  · rw [htick]
    refine List.mem_filter.mpr ?_
    refine ⟨List.mem_append_left _
      (List.mem_append_right _ (List.mem_singleton.mpr rfl)), ?_⟩
    simp
  · intro e he
    rw [htick] at he
    have := (List.mem_filter.mp he).2
    simpa using this
  · rw [htick]
    dsimp only
    rw [herase]
    exact lookupJob_eq_none_of_absent hkeys
  · rw [htick]

/-- Witness for C10 at the concrete duplicate-id pair `c10A`/`c10B` on a
fresh started scheduler. -/
theorem duplicate_id_admitted_overwrites_map_witness :
    (scheduleNotification NewSchedulerService.start 0 c10A).2 = none ∧
    (scheduleNotification c10StateA 0 c10B).2 = none ∧
    lookupJob c10State.jobs c10A.id = some c10StateA.nextEntryId ∧
    NewSchedulerService.start.nextEntryId ≠ c10StateA.nextEntryId ∧
    (NewSchedulerService.start.nextEntryId, c10A) ∈ c10State.entries ∧
    (c10StateA.nextEntryId, c10B) ∈ c10State.entries ∧
    (NewSchedulerService.start.nextEntryId, c10A)
      ∈ (tick SlackNotificationService c10State 1).entries ∧
    lookupJob (tick SlackNotificationService c10State 1).jobs c10A.id
      = none ∧
    (tick SlackNotificationService c10State 1).log
      = NewSchedulerService.start.log
        ++ [mkEvent SlackNotificationService 1 c10A] := by
  have T := duplicate_id_admitted_overwrites_map SlackNotificationService
    NewSchedulerService.start 0 0 1 c10A c10B 1 2 (by decide) rfl
    (by decide) rfl rfl rfl (by decide) (by decide) (by decide) (by decide)
    (by decide)
  obtain ⟨ha1, T1⟩ := T
  obtain ⟨ha2, T2⟩ := T1 c10StateA rfl
  obtain ⟨hb1, hb2, hb3, hb4, hb5, _, hb7, hb8⟩ := T2 c10State rfl
  exact ⟨ha1, ha2, hb1, hb2, hb3, hb4, hb5, hb7, hb8⟩
